import Mathlib

/-
Verification of the archive subsystem (tagged artifact store) of the
natscli diagnostics tool: tag model and path-naming algorithm
(src/archive/tag.go), Writer (src/archive/writer.go) and Reader
(src/archive/reader.go), shallowly embedded in Lean.

Modelling conventions:
- Go maps are embedded as association lists `List (String × β)` with
  first-match lookup; insertion replaces an existing binding in place.
  Go map iteration order is unspecified at runtime; wherever the source
  iterates a map we iterate the association list in list order, a fixed
  representative of the unspecified order (all verified properties are
  insensitive to this choice, and the comments note each such spot).
- Artifact payloads are opaque: JSON serialization of a caller value is
  modelled as the identity on an abstract payload type, so an archive
  entry holds either a payload or a manifest document (`Blob`).  "Equal
  after the JSON round trip" is then plain equality of stored blobs.
- Go `panic` sites inside the naming function are modelled as dedicated
  error values (they are still non-success outcomes of the call).
- The Reader's integrity warnings, printed to stdout in the source, are
  modelled as a list of file names returned by `NewReader` alongside the
  reader, so that they can be reasoned about.
- File-system and zip I/O errors are not modelled: the container is the
  list of (name, blob) entries written, in order.
-/

namespace NatsArchive

/-- Tag is an immutable (Name, Value) pair of strings (src/archive/tag.go). -/
structure Tag where
  name : String
  value : String
deriving DecidableEq, Repr

/-- Label of the server dimension tag. -/
def serverTagLabel : String := "server"

/-- Label of the cluster dimension tag. -/
def clusterTagLabel : String := "cluster"

/-- Label of the account dimension tag. -/
def accountTagLabel : String := "account"

/-- Label of the stream dimension tag. -/
def streamTagLabel : String := "stream"

/-- Label of the artifact-type dimension tag. -/
def typeTagLabel : String := "artifact_type"

/-- Label of the profile-name dimension tag. -/
def profileNameTagLabel : String := "profile_name"

/-- Artifact type reserved for the manifest. -/
def manifestArtifactType : String := "manifest"

/-- Artifact type of server profiles. -/
def profileArtifactType : String := "profile"

/-- Artifact type of account-info artifacts. -/
def accountInfoArtifactType : String := "account_info"

/-- Artifact type of server health artifacts. -/
def healtzArtifactType : String := "health"

/-- Reserved path of the manifest inside the archive. -/
def ManifestFileName : String := "capture/manifest.json"

/-- Reserved cluster-name marker used for servers with no cluster. -/
def NoCluster : String := "unclustered"

/-- Fixed root segment of all archive paths (Go constant rootPrefix). -/
def archiveRoot : String := "capture/"

/-- Fixed name of the sideband capture log entry. -/
def captureLogName : String := archiveRoot ++ "capture.log"

/-- Fixed name of the sideband capture metadata entry. -/
def metadataName : String := archiveRoot ++ "capture_info.json"

/-- Internal tag marking the manifest artifact. -/
def internalTagManifest : Tag := ⟨typeTagLabel, manifestArtifactType⟩

/-- Special tags that map to a fixed file path (Go specialFilesTagMap). -/
def specialFilesTagMap (t : Tag) : Option String :=
  if t = internalTagManifest then some (archiveRoot ++ "manifest.json") else none

/-- The closed set of dimension tag labels (Go dimensionTagsNames). -/
def dimensionTagsNames : List String :=
  [accountTagLabel, clusterTagLabel, serverTagLabel, streamTagLabel, typeTagLabel,
    profileNameTagLabel]

/-- Tag constructor for an artifact type (Go TagArtifactType). -/
def TagArtifactType (artifactType : String) : Tag :=
  ⟨typeTagLabel, artifactType⟩

/-- Tag marking server-health artifacts. -/
def TagServerHealth : Tag := TagArtifactType healtzArtifactType

/-- Tag marking account-info artifacts. -/
def TagAccountInfo : Tag := TagArtifactType accountInfoArtifactType

/-- Tag marking profile artifacts. -/
def TagServerProfile : Tag := TagArtifactType profileArtifactType

/-- Tag for a source server name. -/
def TagServer (serverName : String) : Tag := ⟨serverTagLabel, serverName⟩

/-- Tag for a source cluster name. -/
def TagCluster (clusterName : String) : Tag := ⟨clusterTagLabel, clusterName⟩

/-- Cluster tag carrying the reserved `unclustered` marker value. -/
def TagNoCluster : Tag := ⟨clusterTagLabel, NoCluster⟩

/-- Tag for an account name. -/
def TagAccount (accountName : String) : Tag := ⟨accountTagLabel, accountName⟩

/-- Tag for a stream name. -/
def TagStream (streamName : String) : Tag := ⟨streamTagLabel, streamName⟩

/-- Tag for a profile name. -/
def TagProfileName (profileType : String) : Tag := ⟨profileNameTagLabel, profileType⟩

/-- Error outcomes of createFilenameFromTags.  The Go function returns
error values for most of these and panics for `unhandledTags` and
`unhandledCombination`; both kinds are non-success outcomes. -/
inductive NamingError where
  | atLeastOneTagRequired
  | specialCombined (name : String)
  | multipleValues (name : String)
  | unhandledTags
  | missingRequiredTag (which : String)
  | streamMissingClusterOrAccount
  | accountMissingCluster
  | profileMissingName
  | unhandledCombination
deriving DecidableEq, Repr

/-- Lookup in an association list modelling a Go map (first binding wins;
insertion keeps keys unique, see mapInsert). -/
def mapLookup {β : Type _} (m : List (String × β)) (k : String) : Option β :=
  (m.find? (fun e => e.1 == k)).map (fun e => e.2)

/-- Scan loop of createFilenameFromTags (tag.go lines 105-122): split the
tags into the per-dimension map and the non-dimension rest, rejecting
special tags and duplicate dimension labels. -/
def scanTags : List Tag → List (String × Tag) → List Tag →
    Except NamingError (List (String × Tag) × List Tag)
  | [], dimMap, otherTags => .ok (dimMap, otherTags)
  | tag :: rest, dimMap, otherTags =>
    if (specialFilesTagMap tag).isSome then
      .error (.specialCombined tag.name)
    else if dimensionTagsNames.contains tag.name then
      if (mapLookup dimMap tag.name).isSome then
        .error (.multipleValues tag.name)
      else
        scanTags rest (dimMap ++ [(tag.name, tag)]) otherTags
    else
      scanTags rest dimMap (otherTags ++ [tag])

/-- Path composition from the six per-dimension lookups (tag.go lines
130-194).  The source first extracts the six optional dimension tags and
then branches; the required-tag loop iterates a three-entry Go map whose
iteration order is unspecified, so when several required tags are absent
the reported message is unspecified — we fix the order artifact type,
source cluster, source server (the literal order); whether an error
occurs does not depend on this choice.  The source's re-checks of the
cluster tag inside the stream and account branches, and its NoCluster
fallback in the server branch, are unreachable because the required-tag
loop already demands a cluster tag; the faithful residue is kept as
comments. -/
def composeFromLookups (accountTag clusterTag serverTag streamTag typeTag
    profileNameTag : Option Tag) : Except NamingError String :=
  match typeTag with
  | none => .error (.missingRequiredTag "artifact type")
  | some typeTag =>
    match clusterTag with
    | none => .error (.missingRequiredTag "source cluster")
    | some clusterTag =>
      match serverTag with
      | none => .error (.missingRequiredTag "source server")
      | some serverTag =>
        match streamTag with
        | some streamTag =>
          -- Stream artifact must have account and cluster tag
          -- (the cluster half of the check is subsumed by the required-tag loop)
          match accountTag with
          | none => .error .streamMissingClusterOrAccount
          | some accountTag =>
            .ok (archiveRoot ++
              ("accounts/" ++ accountTag.value ++ "/streams/" ++ streamTag.value ++
                "/replicas/" ++ clusterTag.value ++ "__" ++ serverTag.value ++ "/" ++
                typeTag.value) ++ ".json")
        | none =>
          match accountTag with
          | some accountTag =>
            -- Account artifact (but not a stream); the source's cluster
            -- presence check here is subsumed by the required-tag loop
            .ok (archiveRoot ++
              ("accounts/" ++ accountTag.value ++ "/servers/" ++ clusterTag.value ++
                "__" ++ serverTag.value ++ "/" ++ typeTag.value) ++ ".json")
          | none =>
            -- Server artifact; the source's NoCluster fallback is
            -- unreachable because the cluster tag is required above
            if typeTag.value == profileArtifactType then
              match profileNameTag with
              | none => .error .profileMissingName
              | some profileNameTag =>
                .ok (archiveRoot ++
                  ("profiles/" ++ clusterTag.value ++ "/" ++ serverTag.value ++ "__" ++
                    profileNameTag.value) ++ ".prof")
            else
              .ok (archiveRoot ++
                ("clusters/" ++ clusterTag.value ++ "/" ++ serverTag.value ++ "/" ++
                  typeTag.value) ++ ".json")

/-- Post-loop part of createFilenameFromTags: extract the six dimension
lookups from the scanned map and compose (tag.go lines 124-194).  The
non-empty otherTags case is a Go panic. -/
def scanCompose (tags : List Tag) : Except NamingError String :=
  match scanTags tags [] [] with
  | .error e => .error e
  | .ok (dimMap, otherTags) =>
    if otherTags.isEmpty then
      composeFromLookups (mapLookup dimMap accountTagLabel)
        (mapLookup dimMap clusterTagLabel) (mapLookup dimMap serverTagLabel)
        (mapLookup dimMap streamTagLabel) (mapLookup dimMap typeTagLabel)
        (mapLookup dimMap profileNameTagLabel)
    else
      .error .unhandledTags

/-- Naming function mapping a tag list to the artifact path
(createFilenameFromTags, tag.go lines 84-195). -/
def createFilenameFromTags (tags : List Tag) : Except NamingError String :=
  match tags with
  | [] => .error .atLeastOneTagRequired
  | [tag] =>
    match specialFilesTagMap tag with
    | some fileName => .ok fileName
    | none => scanCompose [tag]
  | _ => scanCompose tags

/-- Content of one container entry: either an artifact payload (its JSON
image, kept abstract) or the manifest document mapping paths to tag
lists.  The Go code serializes both through encoding/json; decoding is
modelled as the identity on blobs. -/
inductive Blob (α : Type) where
  | payload (data : α)
  | manifestDoc (m : List (String × List Tag))
deriving DecidableEq, Repr

/-- Insert or replace a binding in an association list modelling a Go
map assignment m[k] = v. -/
def mapInsert {β : Type _} : List (String × β) → String → β → List (String × β)
  | [], k, v => [(k, v)]
  | (k0, v0) :: rest, k, v =>
    if k0 == k then (k0, v) :: rest else (k0, v0) :: mapInsert rest k v

/-- Writer state (src/archive/writer.go): the container entries written
so far (in order), the in-memory manifest, and whether the underlying
zip writer has been closed (Go: zipWriter == nil). -/
structure Writer (α : Type) where
  entries : List (String × Blob α)
  manifestMap : List (String × List Tag)
  closed : Bool
deriving DecidableEq, Repr

/-- Error outcomes of Writer.Add / Writer.AddObject. -/
inductive AddError where
  | closedWriter
  | namingError (e : NamingError)
  | duplicateArtifact (name : String)
deriving DecidableEq, Repr

/-- Error outcome of Writer.Close. -/
inductive CloseError where
  | failedToAddManifest
deriving DecidableEq, Repr

/-- NewWriter creates a fresh writer over an empty container
(writer.go; file-creation I/O errors are not modelled). -/
def NewWriter (α : Type) : Writer α :=
  { entries := [], manifestMap := [], closed := false }

/-- AddObject (writer.go lines 95-127): refuse a closed writer, name the
artifact from its tags, refuse a duplicate path, then append the
container entry and record path → tags in the manifest.  The Go method
mutates the writer in place and returns an error; we return the
post-call writer state together with the optional error, so that
"the failed call leaves the state unchanged" is expressible. -/
def Writer.AddObject {α : Type} (w : Writer α) (content : Blob α) (tags : List Tag) :
    Writer α × Option AddError :=
  if w.closed then
    (w, some .closedWriter)
  else
    match createFilenameFromTags tags with
    | .error e => (w, some (.namingError e))
    | .ok name =>
      if (mapLookup w.manifestMap name).isSome then
        (w, some (.duplicateArtifact name))
      else
        ({ w with
            entries := w.entries ++ [(name, content)],
            manifestMap := w.manifestMap ++ [(name, tags)] }, none)

/-- Add (writer.go lines 81-92): serialize the artifact to JSON and hand
the bytes to AddObject.  Serialization is the identity in this model
(the blob already is the serialized image). -/
def Writer.Add {α : Type} (w : Writer α) (artifact : Blob α) (tags : List Tag) :
    Writer α × Option AddError :=
  w.AddObject artifact tags

/-- addArtifact (writer.go lines 65-76): low-level write of a container
entry under a fixed name, bypassing the manifest. -/
def Writer.addArtifact {α : Type} (w : Writer α) (name : String) (content : Blob α) :
    Writer α :=
  { w with entries := w.entries ++ [(name, content)] }

/-- AddCaptureLog (writer.go lines 129-131): sideband entry under the
fixed capture-log name, not recorded in the manifest. -/
def Writer.AddCaptureLog {α : Type} (w : Writer α) (content : Blob α) : Writer α :=
  w.addArtifact captureLogName content

/-- AddCaptureMetadata (writer.go lines 133-139): sideband entry under
the fixed metadata name, not recorded in the manifest. -/
def Writer.AddCaptureMetadata {α : Type} (w : Writer α) (metadata : Blob α) : Writer α :=
  w.addArtifact metadataName metadata

/-- Close (writer.go lines 33-61): if the writer is still open, add the
manifest document as an artifact through Add (the special manifest tag
names the reserved path); on failure return the error with the writer
left open, otherwise mark the writer closed. -/
def Writer.Close {α : Type} (w : Writer α) : Writer α × Option CloseError :=
  if w.closed then
    ({ w with closed := true }, none)
  else
    match w.Add (Blob.manifestDoc w.manifestMap) [internalTagManifest] with
    | (_, some _) => (w, some .failedToAddManifest)
    | (w2, none) => ({ w2 with closed := true }, none)

/-- Reader state (src/archive/reader.go): the name → entry map, the
decoded manifest, and the derived indexes built once at open time.
Inner sets are Go maps to a unit value, modelled as association lists
to Unit. -/
structure Reader (α : Type) where
  filesMap : List (String × Blob α)
  manifestMap : List (String × List Tag)
  accountTags : List Tag
  clusterTags : List Tag
  serverTags : List Tag
  streamTags : List Tag
  accountNames : List String
  clusterNames : List String
  clustersServerNames : List (String × List String)
  accountStreamNames : List (String × List String)
  streamServerNames : List (String × List String)
deriving DecidableEq, Repr

/-- Error outcomes of NewReader. -/
inductive OpenError where
  | manifestNameError
  | manifestNotFound
  | manifestDecodeFailed
  | manifestEntryMissing (name : String)
deriving DecidableEq, Repr

/-- Error outcomes of Reader.GetFile / Get / Load. -/
inductive LoadError where
  | noMatches
  | multipleMatches
  | fileNotFound
deriving DecidableEq, Repr

/-- Build the name → entry map from the container's entry list
(reader.go lines 127-130; a later entry with the same name wins). -/
def buildFilesMap {α : Type} (entries : List (String × Blob α)) :
    List (String × Blob α) :=
  entries.foldl (fun m e => mapInsert m e.1 e.2) []

/-- Keys of an association list (Go: iterating a map's keys). -/
def keysOf {β : Type _} (m : List (String × β)) : List String :=
  m.map (fun e => e.1)

/-- Membership test of one tag set against a conjunction of query tags
(reader.go lines 83-96): every query tag must occur, by exact
(name, value) equality, among the entry's tags.  The source turns the
entry's tag list into a set first; set membership coincides with list
membership. -/
def tagSetMatch (fileTags : List Tag) (queryTags : List Tag) : Bool :=
  queryTags.all (fun q => fileTags.contains q)

/-- GetFile (reader.go lines 42-52): exact-path lookup. -/
def Reader.GetFile {α : Type} (r : Reader α) (name : String) :
    Except LoadError (Blob α) :=
  match mapLookup r.filesMap name with
  | none => .error .fileNotFound
  | some b => .ok b

/-- Get (reader.go lines 55-66): GetFile plus JSON decoding, which is
the identity on blobs in this model. -/
def Reader.Get {α : Type} (r : Reader α) (name : String) :
    Except LoadError (Blob α) :=
  r.GetFile name

/-- Load (reader.go lines 73-116): scan the manifest for entries whose
tag set contains every query tag; zero matches is ErrNoMatches, more
than one is ErrMultipleMatches, exactly one is handed to Get.  The Go
loop visits the manifest map in unspecified order; the match count and
the unique match do not depend on the order. -/
def Reader.Load {α : Type} (r : Reader α) (queryTags : List Tag) :
    Except LoadError (Blob α) :=
  match (r.manifestMap.filter (fun e => tagSetMatch e.2 queryTags)).map (fun e => e.1) with
  | [] => .error .noMatches
  | [matchedFileName] => r.Get matchedFileName
  | _ => .error .multipleMatches

/-- Value of the last tag with the given label in a tag list, empty
string when absent (reader.go lines 182-194: one switch loop where a
later tag of the same label overwrites the local variable). -/
def lastValueFor (tags : List Tag) (label : String) : String :=
  tags.foldl (fun acc t => if t.name == label then t.value else acc) ""

/-- Insert into a Go map-used-as-set (value is nil/unit). -/
def setInsert (s : List (String × Unit)) (x : String) : List (String × Unit) :=
  if (mapLookup s x).isSome then s else s ++ [(x, ())]

/-- Build the cluster → set-of-servers map from the manifest
(reader.go lines 196-205). -/
def buildClustersServersMap (manifest : List (String × List Tag)) :
    List (String × List (String × Unit)) :=
  manifest.foldl
    (fun acc e =>
      let cluster := lastValueFor e.2 clusterTagLabel
      let server := lastValueFor e.2 serverTagLabel
      if cluster ≠ "" then
        let acc := if (mapLookup acc cluster).isSome then acc else acc ++ [(cluster, [])]
        if server ≠ "" then
          mapInsert acc cluster (setInsert ((mapLookup acc cluster).getD []) server)
        else acc
      else acc)
    []

/-- Build the account → stream → set-of-servers map from the manifest
(reader.go lines 207-222). -/
def buildAccountsStreamsMap (manifest : List (String × List Tag)) :
    List (String × List (String × List (String × Unit))) :=
  manifest.foldl
    (fun acc e =>
      let account := lastValueFor e.2 accountTagLabel
      let stream := lastValueFor e.2 streamTagLabel
      let server := lastValueFor e.2 serverTagLabel
      if account ≠ "" then
        let acc := if (mapLookup acc account).isSome then acc else acc ++ [(account, [])]
        if stream ≠ "" then
          let streams := (mapLookup acc account).getD []
          let streams :=
            if (mapLookup streams stream).isSome then streams else streams ++ [(stream, [])]
          let streams :=
            if server ≠ "" then
              mapInsert streams stream (setInsert ((mapLookup streams stream).getD []) server)
            else streams
          mapInsert acc account streams
        else acc
      else acc)
    []

/-- shrinkMapOfSets (reader.go lines 277-288): turn a map of sets into
its key list and a map from key to the inner sets' key lists. -/
def shrinkMapOfSets {γ : Type _} (m : List (String × List (String × γ))) :
    List String × List (String × List String) :=
  (m.map (fun e => e.1), m.map (fun e => (e.1, e.2.map (fun s => s.1))))

/-- Deduplicated list of tags with the given label present in the
manifest (reader.go lines 239-255). -/
def getUniqueTags (manifest : List (String × List Tag)) (label : String) : List Tag :=
  manifest.foldl
    (fun acc e =>
      e.2.foldl
        (fun acc2 t =>
          if t.name == label then (if acc2.contains t then acc2 else acc2 ++ [t]) else acc2)
        acc)
    []

/-- NewReader (reader.go lines 118-272): build the name → entry map,
locate and decode the reserved manifest entry, check that every
manifest path has a container entry (fatal), collect a warning for each
non-manifest container entry absent from the manifest, then build the
derived indexes.  Warnings, printed to stdout in the source, are
returned as a list of entry names. -/
def NewReader {α : Type} (entries : List (String × Blob α)) :
    Except OpenError (Reader α × List String) :=
  let filesMap := buildFilesMap entries
  match createFilenameFromTags [internalTagManifest] with
  | .error _ => .error .manifestNameError
  | .ok manifestFileName =>
    match mapLookup filesMap manifestFileName with
    | none => .error .manifestNotFound
    | some (Blob.payload _) => .error .manifestDecodeFailed
    | some (Blob.manifestDoc manifestMap) =>
      match manifestMap.find? (fun e => (mapLookup filesMap e.1).isNone) with
      | some missing => .error (.manifestEntryMissing missing.1)
      | none =>
        let warnings := (keysOf filesMap).filter
          (fun n => (n != ManifestFileName) && (mapLookup manifestMap n).isNone)
        let clustersServersMap := buildClustersServersMap manifestMap
        let accountsStreamsMap := buildAccountsStreamsMap manifestMap
        let clustersShrunk := shrinkMapOfSets clustersServersMap
        let accountsShrunk := shrinkMapOfSets accountsStreamsMap
        let streamsServers := accountsStreamsMap.foldl
          (fun acc e =>
            (shrinkMapOfSets e.2).2.foldl
              (fun acc2 se => mapInsert acc2 (e.1 ++ "/" ++ se.1) se.2) acc)
          []
        .ok ({ filesMap := filesMap
               manifestMap := manifestMap
               accountTags := getUniqueTags manifestMap accountTagLabel
               clusterTags := getUniqueTags manifestMap clusterTagLabel
               serverTags := getUniqueTags manifestMap serverTagLabel
               streamTags := getUniqueTags manifestMap streamTagLabel
               accountNames := accountsShrunk.1
               clusterNames := clustersShrunk.1
               clustersServerNames := clustersShrunk.2
               accountStreamNames := accountsShrunk.2
               streamServerNames := streamsServers }, warnings)

/-- shallowCopy (reader.go lines 345-347): defensive copy of a returned
list; for immutable Lean lists this is the identity. -/
def shallowCopy {β : Type _} (original : List β) : List β :=
  original

/-- GetAccountStreamNames (reader.go lines 315-321): streams of an
account, empty for an unknown account. -/
def Reader.GetAccountStreamNames {α : Type} (r : Reader α) (accountName : String) :
    List String :=
  match mapLookup r.accountStreamNames accountName with
  | some streams => shallowCopy streams
  | none => []

/-- GetClusterServerNames (reader.go lines 327-333): servers of a
cluster, empty for an unknown cluster. -/
def Reader.GetClusterServerNames {α : Type} (r : Reader α) (clusterName : String) :
    List String :=
  match mapLookup r.clustersServerNames clusterName with
  | some servers => shallowCopy servers
  | none => []

/-- GetStreamServerNames (reader.go lines 335-341): replica servers of
an (account, stream) pair, empty for an unknown pair. -/
def Reader.GetStreamServerNames {α : Type} (r : Reader α)
    (accountName streamName : String) : List String :=
  match mapLookup r.streamServerNames (accountName ++ "/" ++ streamName) with
  | some servers => shallowCopy servers
  | none => []

/-- One capture-session writer call, for quantifying over arbitrary
sequences of writer operations. -/
inductive WriterOp (α : Type) where
  | add (artifact : Blob α) (tags : List Tag)
  | addObject (content : Blob α) (tags : List Tag)
  | addCaptureLog (content : Blob α)
  | addCaptureMetadata (metadata : Blob α)

/-- Writer state after one operation (failed adds leave the state
unchanged, as in the source). -/
def applyOp {α : Type} (w : Writer α) : WriterOp α → Writer α
  | .add artifact tags => (w.Add artifact tags).1
  | .addObject content tags => (w.AddObject content tags).1
  | .addCaptureLog content => w.AddCaptureLog content
  | .addCaptureMetadata metadata => w.AddCaptureMetadata metadata

/-- Writer state after a sequence of operations. -/
def applyOps {α : Type} (w : Writer α) (ops : List (WriterOp α)) : Writer α :=
  ops.foldl applyOp w

theorem mapLookup_cons {β : Type _} (k0 : String) (v0 : β) (rest : List (String × β))
    (k : String) :
    mapLookup ((k0, v0) :: rest) k = if k0 == k then some v0 else mapLookup rest k := by
  by_cases h : (k0 == k) = true <;> simp [mapLookup, List.find?, h]

theorem mapLookup_append {β : Type _} (m1 m2 : List (String × β)) (k : String) :
    mapLookup (m1 ++ m2) k = (mapLookup m1 k).or (mapLookup m2 k) := by
  simp only [mapLookup, List.find?_append]
  cases m1.find? (fun e => e.1 == k) <;> simp

theorem mapLookup_isSome_of_mem {β : Type _} {m : List (String × β)} {k : String}
    {v : β} (h : (k, v) ∈ m) : (mapLookup m k).isSome := by
  unfold mapLookup
  cases hf : m.find? (fun e => e.1 == k) with
  | none =>
    rw [List.find?_eq_none] at hf
    have := hf (k, v) h
    simp at this
  | some e => simp

theorem mem_of_mapLookup_eq_some {β : Type _} {m : List (String × β)} {k : String}
    {v : β} (h : mapLookup m k = some v) : (k, v) ∈ m := by
  simp only [mapLookup, Option.map_eq_some'] at h
  obtain ⟨e, he, hv⟩ := h
  have h1 : e.1 = k := by
    have := List.find?_some he
    simpa using this
  have h2 : e ∈ m := List.mem_of_find?_eq_some he
  have : e = (k, v) := by
    cases e
    simp_all
  rwa [this] at h2

theorem mapLookup_insert_self {β : Type _} (m : List (String × β)) (k : String) (v : β) :
    mapLookup (mapInsert m k v) k = some v := by
  induction m with
  | nil => simp [mapInsert, mapLookup, List.find?]
  | cons e rest ih =>
    obtain ⟨k0, v0⟩ := e
    by_cases h : (k0 == k) = true <;> simp [mapInsert, h, mapLookup_cons, ih]

theorem mapLookup_insert_ne {β : Type _} (m : List (String × β)) (k k' : String) (v : β)
    (h : k' ≠ k) : mapLookup (mapInsert m k v) k' = mapLookup m k' := by
  induction m with
  | nil =>
    have : (k == k') = false := beq_eq_false_iff_ne.mpr (fun hh => h hh.symm)
    simp [mapInsert, mapLookup, List.find?, this]
  | cons e rest ih =>
    obtain ⟨k0, v0⟩ := e
    by_cases hk : (k0 == k) = true
    · have hk0 : k0 = k := by simpa using hk
      subst hk0
      have : (k0 == k') = false := by
        simp only [beq_eq_false_iff_ne, ne_eq]
        exact fun hh => h hh.symm
      simp [mapInsert, mapLookup_cons, this]
    · simp [mapInsert, hk, mapLookup_cons, ih]

theorem mapLookup_insert_isSome {β : Type _} (m : List (String × β)) (k k' : String)
    (v : β) :
    (mapLookup (mapInsert m k v) k').isSome = true ↔
      k' = k ∨ (mapLookup m k').isSome = true := by
  by_cases h : k' = k
  · subst h
    simp [mapLookup_insert_self]
  · simp [mapLookup_insert_ne m k k' v h, h]

theorem buildFilesMap_snoc {α : Type} (es : List (String × Blob α)) (e : String × Blob α) :
    buildFilesMap (es ++ [e]) = mapInsert (buildFilesMap es) e.1 e.2 := by
  simp [buildFilesMap, List.foldl_append]

theorem mapLookup_foldlInsert_isSome {α : Type} (es : List (String × Blob α))
    (acc : List (String × Blob α)) (k : String) :
    (mapLookup (es.foldl (fun m e => mapInsert m e.1 e.2) acc) k).isSome = true ↔
      (mapLookup acc k).isSome = true ∨ k ∈ keysOf es := by
  induction es generalizing acc with
  | nil => simp [keysOf]
  | cons e rest ih =>
    simp only [List.foldl_cons, ih, keysOf, List.map_cons, List.mem_cons]
    rw [mapLookup_insert_isSome]
    tauto

theorem mapLookup_buildFilesMap_isSome {α : Type} (es : List (String × Blob α))
    (k : String) :
    (mapLookup (buildFilesMap es) k).isSome = true ↔ k ∈ keysOf es := by
  rw [show buildFilesMap es = es.foldl (fun m e => mapInsert m e.1 e.2) [] from rfl,
    mapLookup_foldlInsert_isSome]
  simp [mapLookup]

theorem manifest_filename_eval :
    createFilenameFromTags [internalTagManifest] = .ok ManifestFileName := by
  rfl

theorem get_no_query_error {α : Type} (r : Reader α) (n : String) :
    r.Get n ≠ .error .noMatches ∧ r.Get n ≠ .error .multipleMatches := by
  unfold Reader.Get Reader.GetFile
  cases mapLookup r.filesMap n <;> simp

/-- C5: on a writer that already holds an artifact at path p, a second
Add / AddObject whose tags normalize to p returns the duplicate-artifact
error and leaves the writer's manifest and container contents unchanged
(the returned state is the input state). -/
theorem c5_duplicate_add_rejected {α : Type} (w : Writer α) (content : Blob α)
    (tags : List Tag) (p : String)
    (hopen : w.closed = false)
    (hname : createFilenameFromTags tags = .ok p)
    (hdup : (mapLookup w.manifestMap p).isSome) :
    w.AddObject content tags = (w, some (AddError.duplicateArtifact p)) ∧
    w.Add content tags = (w, some (AddError.duplicateArtifact p)) := by
  constructor <;> simp [Writer.Add, Writer.AddObject, hopen, hname, hdup]

/-- Witness for C5 at a concrete writer: the same tag set in a different
order is rejected as a duplicate and the writer is unchanged. -/
theorem c5_witness :
    (((NewWriter Nat).Add (Blob.payload 1)
        [TagCluster "C1", TagServer "S1", TagServerHealth]).1.AddObject (Blob.payload 2)
        [TagServerHealth, TagCluster "C1", TagServer "S1"])
      = (((NewWriter Nat).Add (Blob.payload 1)
            [TagCluster "C1", TagServer "S1", TagServerHealth]).1,
          some (AddError.duplicateArtifact "capture/clusters/C1/S1/health.json")) :=
  (c5_duplicate_add_rejected
    ((NewWriter Nat).Add (Blob.payload 1)
      [TagCluster "C1", TagServer "S1", TagServerHealth]).1
    (Blob.payload 2) [TagServerHealth, TagCluster "C1", TagServer "S1"]
    "capture/clusters/C1/S1/health.json" rfl rfl rfl).1

/-- C8: the navigation accessors return the empty list, not an error or
a degenerate value, on every cluster name, account name, or
(account, stream) pair absent from the derived indexes. -/
theorem c8_accessors_total {α : Type} (r : Reader α) :
    (∀ clusterName, mapLookup r.clustersServerNames clusterName = none →
      r.GetClusterServerNames clusterName = []) ∧
    (∀ accountName, mapLookup r.accountStreamNames accountName = none →
      r.GetAccountStreamNames accountName = []) ∧
    (∀ accountName streamName,
      mapLookup r.streamServerNames (accountName ++ "/" ++ streamName) = none →
      r.GetStreamServerNames accountName streamName = []) := by
  refine ⟨fun c h => ?_, fun a h => ?_, fun a s h => ?_⟩ <;>
    simp [Reader.GetClusterServerNames, Reader.GetAccountStreamNames,
      Reader.GetStreamServerNames, h]

/-- Witness for C8 at a concrete reader with empty indexes. -/
theorem c8_witness :
    (Reader.mk ([] : List (String × Blob Nat)) [] [] [] [] [] [] [] [] [] []
        ).GetClusterServerNames "unknown" = [] ∧
    (Reader.mk ([] : List (String × Blob Nat)) [] [] [] [] [] [] [] [] [] []
        ).GetAccountStreamNames "unknown" = [] ∧
    (Reader.mk ([] : List (String × Blob Nat)) [] [] [] [] [] [] [] [] [] []
        ).GetStreamServerNames "unknown" "unknown" = [] :=
  ⟨(c8_accessors_total _).1 "unknown" rfl,
   (c8_accessors_total _).2.1 "unknown" rfl,
   (c8_accessors_total _).2.2 "unknown" "unknown" rfl⟩

/-- C10: Load with an empty query tag list matches every manifest entry:
empty manifest gives ErrNoMatches, a singleton manifest deserializes its
unique artifact via Get, two or more entries give ErrMultipleMatches. -/
theorem c10_empty_query {α : Type} (r : Reader α) :
    (r.manifestMap = [] → r.Load [] = .error .noMatches) ∧
    (∀ n ts, r.manifestMap = [(n, ts)] → r.Load [] = r.Get n) ∧
    (2 ≤ r.manifestMap.length → r.Load [] = .error .multipleMatches) := by
  refine ⟨fun h => ?_, fun n ts h => ?_, fun h => ?_⟩
  · simp [Reader.Load, h, tagSetMatch]
  · simp [Reader.Load, h, tagSetMatch]
  · rcases hm : r.manifestMap with _ | ⟨a, _ | ⟨b, rest⟩⟩
    · rw [hm] at h
      simp at h
    · rw [hm] at h
      simp at h
    · simp [Reader.Load, hm, tagSetMatch]

/-- Witness for C10 at concrete readers with zero, one and two manifest
entries. -/
theorem c10_witness :
    (Reader.mk ([] : List (String × Blob Nat)) [] [] [] [] [] [] [] [] [] []
        ).Load [] = .error .noMatches ∧
    (Reader.mk [("p", Blob.payload (5 : Nat))] [("p", [TagServer "S1"])]
        [] [] [] [] [] [] [] [] []).Load []
      = (Reader.mk [("p", Blob.payload (5 : Nat))] [("p", [TagServer "S1"])]
        [] [] [] [] [] [] [] [] []).Get "p" ∧
    (Reader.mk ([] : List (String × Blob Nat))
        [("p", [TagServer "S1"]), ("q", [TagServer "S2"])]
        [] [] [] [] [] [] [] [] []).Load [] = .error .multipleMatches :=
  ⟨(c10_empty_query _).1 rfl,
   (c10_empty_query _).2.1 "p" [TagServer "S1"] rfl,
   (c10_empty_query _).2.2 (by simp)⟩

/-- C2: Load returns ErrNoMatches exactly when no manifest entry's tag
set contains every query tag (by exact (name, value) equality),
ErrMultipleMatches exactly when more than one does, and on a unique
match deserializes that entry via Get. -/
theorem c2_load_trichotomy {α : Type} (r : Reader α) (queryTags : List Tag) :
    (r.Load queryTags = .error .noMatches ↔
      (r.manifestMap.filter (fun e => tagSetMatch e.2 queryTags)).length = 0) ∧
    (r.Load queryTags = .error .multipleMatches ↔
      1 < (r.manifestMap.filter (fun e => tagSetMatch e.2 queryTags)).length) ∧
    (∀ n ts, r.manifestMap.filter (fun e => tagSetMatch e.2 queryTags) = [(n, ts)] →
      r.Load queryTags = r.Get n) := by
  rcases hf : r.manifestMap.filter (fun e => tagSetMatch e.2 queryTags)
    with _ | ⟨a, _ | ⟨b, rest⟩⟩
  · have hload : r.Load queryTags = .error .noMatches := by simp [Reader.Load, hf]
    refine ⟨by simp [hload, hf], by simp [hload, hf], fun n ts heq => ?_⟩
    rw [hf] at heq
    simp at heq
  · have hload : r.Load queryTags = r.Get a.1 := by simp [Reader.Load, hf]
    refine ⟨?_, ?_, fun n ts heq => ?_⟩
    · rw [hload, hf]
      exact iff_of_false (get_no_query_error r a.1).1 (by simp)
    · rw [hload, hf]
      exact iff_of_false (get_no_query_error r a.1).2 (by simp)
    · rw [hf] at heq
      have ha : a = (n, ts) := by simpa using heq
      rw [hload, ha]
  · have hload : r.Load queryTags = .error .multipleMatches := by simp [Reader.Load, hf]
    refine ⟨?_, ?_, fun n ts heq => ?_⟩
    · rw [hload, hf]
      simp
    · rw [hload, hf]
      refine iff_of_true rfl ?_
      simp only [List.length_cons]
      omega
    · rw [hf] at heq
      simp at heq

/-- Witness for C2 at a concrete reader: a unique match goes through
Get, an unmatched query yields ErrNoMatches. -/
theorem c2_witness :
    (Reader.mk [("p", Blob.payload (5 : Nat))]
        [("p", [TagServer "S1", TagServerHealth])]
        [] [] [] [] [] [] [] [] []).Load [TagServerHealth]
      = (Reader.mk [("p", Blob.payload (5 : Nat))]
        [("p", [TagServer "S1", TagServerHealth])]
        [] [] [] [] [] [] [] [] []).Get "p" ∧
    (Reader.mk [("p", Blob.payload (5 : Nat))]
        [("p", [TagServer "S1", TagServerHealth])]
        [] [] [] [] [] [] [] [] []).Load [TagServer "S2"]
      = .error .noMatches :=
  ⟨(c2_load_trichotomy _ [TagServerHealth]).2.2 "p" [TagServer "S1", TagServerHealth] rfl,
   (c2_load_trichotomy _ [TagServer "S2"]).1.mpr rfl⟩

theorem mapLookup_isSome_iff_mem_keys {β : Type _} (m : List (String × β)) (k : String) :
    (mapLookup m k).isSome = true ↔ k ∈ keysOf m := by
  induction m with
  | nil => simp [mapLookup, keysOf]
  | cons e rest ih =>
    obtain ⟨k0, v0⟩ := e
    by_cases h : (k0 == k) = true
    · have : k0 = k := by simpa using h
      simp [mapLookup_cons, h, keysOf, this]
    · have : ¬k = k0 := fun hh => h (by simp [hh])
      simp [mapLookup_cons, h, keysOf, ih, this]

theorem newReader_ok {α : Type} (entries : List (String × Blob α))
    (m : List (String × List Tag))
    (hm : mapLookup (buildFilesMap entries) ManifestFileName = some (Blob.manifestDoc m))
    (hall : ∀ e ∈ m, (mapLookup (buildFilesMap entries) e.1).isSome = true) :
    ∃ r ws, NewReader entries = .ok (r, ws) ∧ r.manifestMap = m ∧
      r.filesMap = buildFilesMap entries ∧
      ws = (keysOf (buildFilesMap entries)).filter
        (fun n => (n != ManifestFileName) && (mapLookup m n).isNone) := by
  have hfind : m.find? (fun e => (mapLookup (buildFilesMap entries) e.1).isNone) = none := by
    rw [List.find?_eq_none]
    intro e he
    simp [Option.isNone_iff_eq_none, Option.isSome_iff_ne_none.mp (hall e he)]
  simp only [NewReader, manifest_filename_eval, hm, hfind]
  exact ⟨_, _, rfl, rfl, rfl, rfl⟩

/-- C6: open-time integrity checks.  A container without an entry at the
reserved manifest path fails to open; a manifest listing a path with no
container entry fails to open with an integrity error naming a missing
path; container entries absent from the manifest only produce warnings,
and the open succeeds, returning exactly those entries as warnings. -/
theorem c6_open_integrity {α : Type} (entries : List (String × Blob α)) :
    (mapLookup (buildFilesMap entries) ManifestFileName = none →
      NewReader (α := α) entries = .error .manifestNotFound) ∧
    (∀ m, mapLookup (buildFilesMap entries) ManifestFileName
        = some (Blob.manifestDoc m) →
      (∃ e ∈ m, mapLookup (buildFilesMap entries) e.1 = none) →
      ∃ n, NewReader entries = .error (.manifestEntryMissing n) ∧
        mapLookup (buildFilesMap entries) n = none) ∧
    (∀ m, mapLookup (buildFilesMap entries) ManifestFileName
        = some (Blob.manifestDoc m) →
      (∀ e ∈ m, (mapLookup (buildFilesMap entries) e.1).isSome = true) →
      ∃ r ws, NewReader entries = .ok (r, ws) ∧
        ws = (keysOf (buildFilesMap entries)).filter
          (fun n => (n != ManifestFileName) && (mapLookup m n).isNone)) := by
  refine ⟨fun h => ?_, fun m hm hex => ?_, fun m hm hall => ?_⟩
  · simp only [NewReader, manifest_filename_eval, h]
  · have hsome : (m.find?
        (fun e => (mapLookup (buildFilesMap entries) e.1).isNone)).isSome = true := by
      rw [List.find?_isSome]
      obtain ⟨e, he, hnone⟩ := hex
      exact ⟨e, he, by simp [hnone]⟩
    obtain ⟨missing, hfind⟩ := Option.isSome_iff_exists.mp hsome
    refine ⟨missing.1, ?_, ?_⟩
    · simp only [NewReader, manifest_filename_eval, hm, hfind]
    · have := List.find?_some hfind
      simpa [Option.isNone_iff_eq_none] using this
  · obtain ⟨r, ws, hok, _, _, hws⟩ := newReader_ok entries m hm hall
    exact ⟨r, ws, hok, hws⟩

/-- Witness for C6 on concrete containers: an empty container, a
container whose manifest references a ghost path, and a container with
an extra untracked entry. -/
theorem c6_witness :
    NewReader ([] : List (String × Blob Nat)) = .error .manifestNotFound ∧
    (∃ n, NewReader [(ManifestFileName,
          (Blob.manifestDoc [("ghost", [])] : Blob Nat))]
        = .error (.manifestEntryMissing n) ∧
      mapLookup (buildFilesMap [(ManifestFileName,
          (Blob.manifestDoc [("ghost", [])] : Blob Nat))]) n = none) ∧
    (∃ r ws, NewReader [(ManifestFileName, (Blob.manifestDoc [] : Blob Nat)),
          ("extra", Blob.payload 3)] = .ok (r, ws) ∧
      ws = (keysOf (buildFilesMap [(ManifestFileName, (Blob.manifestDoc [] : Blob Nat)),
          ("extra", Blob.payload 3)])).filter
        (fun n => (n != ManifestFileName) &&
          (mapLookup ([] : List (String × List Tag)) n).isNone)) :=
  ⟨(c6_open_integrity _).1 rfl,
   (c6_open_integrity _).2.1 [("ghost", [])] rfl ⟨("ghost", []), by simp, rfl⟩,
   (c6_open_integrity _).2.2 [] rfl (by simp)⟩

/-- Counterexample for C7 as stated: an archive written with one tagged
artifact plus a sideband capture log, closed and reopened, raises the
"entry not in manifest" warning precisely for the capture log entry —
the reader's warning loop exempts only the manifest path (reader.go
lines 165-174), not the sideband names. -/
theorem c7_counterexample :
    Except.map (fun rw => rw.2)
      (NewReader ((((NewWriter Nat).Add (Blob.payload 1)
          [TagCluster "C1", TagServer "S1", TagServerHealth]).1.AddCaptureLog
          (Blob.payload 2)).Close.1.entries))
      = .ok [captureLogName] := by
  rfl

/-- C7 amended: sideband entries are indeed never recorded in the
manifest (the sideband APIs append a container entry under the fixed
name and leave the manifest untouched), but they are NOT exempt from the
Reader's "entry not in manifest" warning: an open archive holding a
capture-log entry that is absent from the manifest opens successfully
with the capture-log name among the warnings. -/
theorem c7_sideband_not_exempt {α : Type} :
    (∀ (w : Writer α) (content : Blob α),
      (w.AddCaptureLog content).manifestMap = w.manifestMap ∧
      (w.AddCaptureLog content).entries = w.entries ++ [(captureLogName, content)] ∧
      (w.AddCaptureMetadata content).manifestMap = w.manifestMap ∧
      (w.AddCaptureMetadata content).entries = w.entries ++ [(metadataName, content)]) ∧
    (∀ (entries : List (String × Blob α)) (m : List (String × List Tag)),
      mapLookup (buildFilesMap entries) ManifestFileName = some (Blob.manifestDoc m) →
      (∀ e ∈ m, (mapLookup (buildFilesMap entries) e.1).isSome = true) →
      (mapLookup (buildFilesMap entries) captureLogName).isSome = true →
      mapLookup m captureLogName = none →
      ∃ r ws, NewReader entries = .ok (r, ws) ∧ captureLogName ∈ ws) := by
  refine ⟨fun w content => ⟨rfl, rfl, rfl, rfl⟩,
    fun entries m hm hall hlog hnotin => ?_⟩
  obtain ⟨r, ws, hok, _, _, hws⟩ := newReader_ok entries m hm hall
  refine ⟨r, ws, hok, ?_⟩
  rw [hws]
  rw [List.mem_filter]
  refine ⟨(mapLookup_isSome_iff_mem_keys (buildFilesMap entries) captureLogName).mp hlog, ?_⟩
  simp [hnotin]
  decide

/-- Witness for C7 amended at a concrete writer and archive. -/
theorem c7_witness :
    ((NewWriter Nat).AddCaptureLog (Blob.payload 2)).manifestMap
        = (NewWriter Nat).manifestMap ∧
    (∃ r ws, NewReader [(ManifestFileName, (Blob.manifestDoc [] : Blob Nat)),
        (captureLogName, Blob.payload 2)] = .ok (r, ws) ∧ captureLogName ∈ ws) :=
  ⟨((c7_sideband_not_exempt).1 (NewWriter Nat) (Blob.payload 2)).1,
   (c7_sideband_not_exempt).2
     [(ManifestFileName, (Blob.manifestDoc [] : Blob Nat)),
       (captureLogName, Blob.payload 2)] [] rfl (by simp) rfl rfl⟩

theorem scanTags_ok_mem {l : List Tag} {m : List (String × Tag)} {o : List Tag}
    {res : List (String × Tag) × List Tag} (h : scanTags l m o = .ok res) :
    ∀ k t, (k, t) ∈ res.1 → (k, t) ∈ m ∨ (t ∈ l ∧ k = t.name) := by
  induction l generalizing m o with
  | nil =>
    intro k t hmem
    simp only [scanTags] at h
    cases h
    exact Or.inl hmem
  | cons tag rest ih =>
    intro k t hmem
    simp only [scanTags] at h
    split at h
    · cases h
    · split at h
      · split at h
        · cases h
        · rcases ih h k t hmem with hin | ⟨hr, hk⟩
          · rcases List.mem_append.mp hin with hin | hin
            · exact Or.inl hin
            · have : (k, t) = (tag.name, tag) := by simpa using hin
              have hk : k = tag.name := congrArg Prod.fst this
              have ht : t = tag := congrArg Prod.snd this
              exact Or.inr ⟨by simp [ht], by rw [hk, ht]⟩
          · exact Or.inr ⟨List.mem_cons_of_mem tag hr, hk⟩
      · rcases ih h k t hmem with hin | ⟨hr, hk⟩
        · exact Or.inl hin
        · exact Or.inr ⟨List.mem_cons_of_mem tag hr, hk⟩

theorem scanCompose_error_of_no_cluster (tags : List Tag)
    (hc : ∀ t ∈ tags, t.name ≠ clusterTagLabel) :
    ∃ e, scanCompose tags = .error e := by
  cases hscan : scanTags tags [] [] with
  | error e => exact ⟨e, by simp [scanCompose, hscan]⟩
  | ok pr =>
    obtain ⟨m', o'⟩ := pr
    by_cases ho : o'.isEmpty
    · have hcl : mapLookup m' clusterTagLabel = none := by
        cases hl : mapLookup m' clusterTagLabel with
        | none => rfl
        | some t =>
          have hmem := mem_of_mapLookup_eq_some hl
          rcases scanTags_ok_mem hscan clusterTagLabel t hmem with habs | ⟨ht, hk⟩
          · simp at habs
          · exact absurd hk.symm (hc t ht)
      cases ht : mapLookup m' typeTagLabel with
      | none =>
        exact ⟨.missingRequiredTag "artifact type",
          by simp [scanCompose, hscan, ho, composeFromLookups, ht]⟩
      | some tt =>
        exact ⟨.missingRequiredTag "source cluster",
          by simp [scanCompose, hscan, ho, composeFromLookups, ht, hcl]⟩
    · exact ⟨.unhandledTags, by simp [scanCompose, hscan, ho]⟩

/-- Counterexample for C3 as stated: an account-info tag set with server
and artifact-type tags but no cluster tag is rejected by the naming
function with a missing-required-tag error, instead of succeeding with
the "unclustered" marker — the required-tag loop (tag.go lines 140-148)
demands a cluster tag unconditionally. -/
theorem c3_counterexample :
    createFilenameFromTags [TagAccount "A1", TagServer "S1", TagAccountInfo]
      = .error (NamingError.missingRequiredTag "source cluster") := by
  rfl

/-- C3 amended: the cluster tag is required, not optional.  Every tag
list containing no cluster tag (other than the reserved manifest
singleton) is rejected by the naming function; the "unclustered" marker
appears in a path only when the caller supplies an explicit cluster tag
carrying the reserved marker value (TagNoCluster), as the account-info
composition shows. -/
theorem c3_cluster_required :
    (∀ tags : List Tag, tags ≠ [internalTagManifest] →
      (∀ t ∈ tags, t.name ≠ clusterTagLabel) →
      ∃ e, createFilenameFromTags tags = .error e) ∧
    createFilenameFromTags [TagAccount "A1", TagNoCluster, TagServer "S1", TagAccountInfo]
      = .ok "capture/accounts/A1/servers/unclustered__S1/account_info.json" := by
  refine ⟨fun tags hne hc => ?_, by rfl⟩
  match tags with
  | [] => exact ⟨.atLeastOneTagRequired, rfl⟩
  | [t] =>
    have hts : specialFilesTagMap t = none := by
      have : t ≠ internalTagManifest := fun h => hne (by rw [h])
      simp [specialFilesTagMap, this]
    have heq : createFilenameFromTags [t] = scanCompose [t] := by
      simp [createFilenameFromTags, hts]
    rw [heq]
    exact scanCompose_error_of_no_cluster [t] hc
  | t1 :: t2 :: rest =>
    have heq : createFilenameFromTags (t1 :: t2 :: rest) = scanCompose (t1 :: t2 :: rest) := rfl
    rw [heq]
    exact scanCompose_error_of_no_cluster (t1 :: t2 :: rest) hc

/-- Witness for C3 amended at the concrete account-info tag set without
a cluster tag. -/
theorem c3_witness :
    ∃ e, createFilenameFromTags [TagAccount "A1", TagServer "S1", TagAccountInfo]
      = .error e :=
  (c3_cluster_required).1 [TagAccount "A1", TagServer "S1", TagAccountInfo]
    (by decide) (by decide)

theorem addObject_invariant {α : Type} (w : Writer α) (content : Blob α)
    (tags : List Tag) (hcl : w.closed = false)
    (hinv : ∀ p ts, (p, ts) ∈ w.manifestMap → p ∈ keysOf w.entries) :
    (w.AddObject content tags).1.closed = false ∧
    (∀ p ts, (p, ts) ∈ (w.AddObject content tags).1.manifestMap →
      p ∈ keysOf (w.AddObject content tags).1.entries) := by
  unfold Writer.AddObject
  rw [hcl]
  simp only [Bool.false_eq_true, if_false]
  split
  · exact ⟨hcl, hinv⟩
  · split
    · exact ⟨hcl, hinv⟩
    · refine ⟨rfl, fun p ts hmem => ?_⟩
      simp only [List.mem_append] at hmem
      rcases hmem with hmem | hmem
      · simp only [keysOf, List.map_append, List.mem_append]
        exact Or.inl (hinv p ts hmem)
      · simp only [List.mem_singleton, Prod.mk.injEq] at hmem
        simp [keysOf, hmem.1]

theorem applyOps_invariant {α : Type} (ops : List (WriterOp α)) (w : Writer α)
    (hcl : w.closed = false)
    (hinv : ∀ p ts, (p, ts) ∈ w.manifestMap → p ∈ keysOf w.entries) :
    (applyOps w ops).closed = false ∧
    (∀ p ts, (p, ts) ∈ (applyOps w ops).manifestMap →
      p ∈ keysOf (applyOps w ops).entries) := by
  induction ops generalizing w with
  | nil => exact ⟨hcl, hinv⟩
  | cons op rest ih =>
    have hstep : (applyOp w op).closed = false ∧
        (∀ p ts, (p, ts) ∈ (applyOp w op).manifestMap →
          p ∈ keysOf (applyOp w op).entries) := by
      cases op with
      | add artifact tags => exact addObject_invariant w artifact tags hcl hinv
      | addObject content tags => exact addObject_invariant w content tags hcl hinv
      | addCaptureLog content =>
        refine ⟨hcl, fun p ts hmem => ?_⟩
        simp only [applyOp, Writer.AddCaptureLog, Writer.addArtifact, keysOf,
          List.map_append, List.mem_append]
        exact Or.inl (hinv p ts hmem)
      | addCaptureMetadata metadata =>
        refine ⟨hcl, fun p ts hmem => ?_⟩
        simp only [applyOp, Writer.AddCaptureMetadata, Writer.addArtifact, keysOf,
          List.map_append, List.mem_append]
        exact Or.inl (hinv p ts hmem)
    exact ih (applyOp w op) hstep.1 hstep.2

/-- C9: an archive produced by NewWriter, any sequence of writer calls
and a successful Close passes the Reader's fatal integrity checks: the
persisted manifest document sits at the reserved path, does not list its
own path (it is serialized before the manifest path is recorded), every
path it lists has a container entry, and NewReader succeeds. -/
theorem c9_writer_reader_integrity {α : Type} (ops : List (WriterOp α)) (w2 : Writer α)
    (h : (applyOps (NewWriter α) ops).Close = (w2, none)) :
    ∃ m, mapLookup (buildFilesMap w2.entries) ManifestFileName
        = some (Blob.manifestDoc m) ∧
      mapLookup m ManifestFileName = none ∧
      (∀ e ∈ m, (mapLookup (buildFilesMap w2.entries) e.1).isSome = true) ∧
      (NewReader w2.entries).isOk = true := by
  obtain ⟨hcl, hinv⟩ := applyOps_invariant ops (NewWriter α) rfl (by simp [NewWriter])
  by_cases hdup : (mapLookup (applyOps (NewWriter α) ops).manifestMap
      ManifestFileName).isSome = true
  · exfalso
    have hfail : (applyOps (NewWriter α) ops).Close
        = (applyOps (NewWriter α) ops, some .failedToAddManifest) := by
      simp [Writer.Close, hcl, Writer.Add, Writer.AddObject, manifest_filename_eval, hdup]
    rw [hfail] at h
    simp at h
  · have hnone : mapLookup (applyOps (NewWriter α) ops).manifestMap
        ManifestFileName = none := by
      cases hx : mapLookup (applyOps (NewWriter α) ops).manifestMap ManifestFileName with
      | none => rfl
      | some v =>
        rw [hx] at hdup
        simp at hdup
    have hclose : (applyOps (NewWriter α) ops).Close
        = ({ entries := (applyOps (NewWriter α) ops).entries ++
              [(ManifestFileName,
                Blob.manifestDoc (applyOps (NewWriter α) ops).manifestMap)],
             manifestMap := (applyOps (NewWriter α) ops).manifestMap ++
              [(ManifestFileName, [internalTagManifest])],
             closed := true }, none) := by
      simp [Writer.Close, hcl, Writer.Add, Writer.AddObject, manifest_filename_eval, hnone]
    rw [hclose] at h
    injection h with h1 h2
    subst h1
    refine ⟨(applyOps (NewWriter α) ops).manifestMap, ?_, hnone, ?_, ?_⟩
    · show mapLookup (buildFilesMap ((applyOps (NewWriter α) ops).entries ++
        [(ManifestFileName,
          Blob.manifestDoc (applyOps (NewWriter α) ops).manifestMap)])) _ = _
      rw [buildFilesMap_snoc]
      exact mapLookup_insert_self _ _ _
    · intro e he
      show (mapLookup (buildFilesMap ((applyOps (NewWriter α) ops).entries ++
        [(ManifestFileName,
          Blob.manifestDoc (applyOps (NewWriter α) ops).manifestMap)])) e.1).isSome = true
      rw [buildFilesMap_snoc]
      rw [mapLookup_insert_isSome]
      refine Or.inr ?_
      rw [mapLookup_buildFilesMap_isSome]
      exact hinv e.1 e.2 (by simpa using he)
    · have hm : mapLookup (buildFilesMap ((applyOps (NewWriter α) ops).entries ++
          [(ManifestFileName,
            Blob.manifestDoc (applyOps (NewWriter α) ops).manifestMap)]))
            ManifestFileName
          = some (Blob.manifestDoc (applyOps (NewWriter α) ops).manifestMap) := by
        rw [buildFilesMap_snoc]
        exact mapLookup_insert_self _ _ _
      have hall : ∀ e ∈ (applyOps (NewWriter α) ops).manifestMap,
          (mapLookup (buildFilesMap ((applyOps (NewWriter α) ops).entries ++
            [(ManifestFileName,
              Blob.manifestDoc (applyOps (NewWriter α) ops).manifestMap)]))
            e.1).isSome = true := by
        intro e he
        rw [buildFilesMap_snoc, mapLookup_insert_isSome]
        refine Or.inr ?_
        rw [mapLookup_buildFilesMap_isSome]
        exact hinv e.1 e.2 (by simpa using he)
      obtain ⟨r, ws, hok, -, -, -⟩ := newReader_ok _ _ hm hall
      show (NewReader ((applyOps (NewWriter α) ops).entries ++
        [(ManifestFileName,
          Blob.manifestDoc (applyOps (NewWriter α) ops).manifestMap)])).isOk = true
      rw [hok]
      rfl

/-- Witness for C9 at a concrete capture session with one tagged
artifact and one sideband entry. -/
theorem c9_witness :
    ∃ m, mapLookup (buildFilesMap ((applyOps (NewWriter Nat)
        [WriterOp.add (Blob.payload 5) [TagCluster "C1", TagServer "S1", TagServerHealth],
         WriterOp.addCaptureLog (Blob.payload 9)]).Close.1.entries)) ManifestFileName
        = some (Blob.manifestDoc m) ∧
      mapLookup m ManifestFileName = none ∧
      (∀ e ∈ m, (mapLookup (buildFilesMap ((applyOps (NewWriter Nat)
        [WriterOp.add (Blob.payload 5) [TagCluster "C1", TagServer "S1", TagServerHealth],
         WriterOp.addCaptureLog (Blob.payload 9)]).Close.1.entries)) e.1).isSome = true) ∧
      (NewReader ((applyOps (NewWriter Nat)
        [WriterOp.add (Blob.payload 5) [TagCluster "C1", TagServer "S1", TagServerHealth],
         WriterOp.addCaptureLog (Blob.payload 9)]).Close.1.entries)).isOk = true :=
  c9_writer_reader_integrity
    [WriterOp.add (Blob.payload 5) [TagCluster "C1", TagServer "S1", TagServerHealth],
     WriterOp.addCaptureLog (Blob.payload 9)] _ rfl

theorem tagSetMatch_self (ts : List Tag) : tagSetMatch ts ts = true := by
  simp [tagSetMatch, List.all_eq_true]

/-- Counterexample for C1 as stated: the naming function accepts the
singleton reserved manifest tag, yet an artifact added under it occupies
the reserved manifest path, so Close fails to add the manifest (path
already present) and the archive cannot be opened — the round trip
breaks for this accepted tag list. -/
theorem c1_counterexample :
    createFilenameFromTags [internalTagManifest] = .ok ManifestFileName ∧
    ((NewWriter Nat).Add (Blob.payload 0) [internalTagManifest]).2 = none ∧
    ((NewWriter Nat).Add (Blob.payload 0) [internalTagManifest]).1.Close
      = (((NewWriter Nat).Add (Blob.payload 0) [internalTagManifest]).1,
          some CloseError.failedToAddManifest) ∧
    NewReader (((NewWriter Nat).Add (Blob.payload 0) [internalTagManifest]).1.entries)
      = .error OpenError.manifestDecodeFailed :=
  ⟨rfl, rfl, rfl, rfl⟩

/-- C1 amended: for every value and every tag list accepted by the
naming function whose path is not the reserved manifest path (i.e. any
tag list other than the manifest sentinel singleton), adding the value,
closing the writer, reopening the archive and loading with the same
tags succeeds and returns exactly the stored serialized value. -/
theorem c1_round_trip {α : Type} (v : α) (tags : List Tag) (p : String)
    (hname : createFilenameFromTags tags = .ok p) (hp : p ≠ ManifestFileName) :
    ∃ w1 w2 r ws,
      (NewWriter α).Add (Blob.payload v) tags = (w1, none) ∧
      w1.Close = (w2, none) ∧
      NewReader w2.entries = .ok (r, ws) ∧
      r.Load tags = .ok (Blob.payload v) := by
  have hpb : (p == ManifestFileName) = false := beq_eq_false_iff_ne.mpr hp
  have hadd : (NewWriter α).Add (Blob.payload v) tags
      = ({ entries := [(p, Blob.payload v)], manifestMap := [(p, tags)],
           closed := false }, none) := by
    simp [Writer.Add, Writer.AddObject, NewWriter, hname, mapLookup]
  have hlk : mapLookup [(p, tags)] ManifestFileName = none := by
    simp [mapLookup_cons, hpb, mapLookup]
  have hclose : (Writer.mk [(p, Blob.payload v)] [(p, tags)] false : Writer α).Close
      = ({ entries := [(p, Blob.payload v),
            (ManifestFileName, Blob.manifestDoc [(p, tags)])],
           manifestMap := [(p, tags), (ManifestFileName, [internalTagManifest])],
           closed := true }, none) := by
    simp [Writer.Close, Writer.Add, Writer.AddObject, manifest_filename_eval, hlk]
  have hbuild : buildFilesMap [(p, Blob.payload v),
      (ManifestFileName, Blob.manifestDoc [(p, tags)])]
      = [(p, Blob.payload v), (ManifestFileName, Blob.manifestDoc [(p, tags)])] := by
    simp [buildFilesMap, mapInsert, hpb]
  have hm : mapLookup (buildFilesMap [(p, Blob.payload v),
      (ManifestFileName, Blob.manifestDoc [(p, tags)])]) ManifestFileName
      = some (Blob.manifestDoc [(p, tags)]) := by
    rw [hbuild, mapLookup_cons]
    simp [hpb, mapLookup_cons]
  have hall : ∀ e ∈ [(p, tags)],
      (mapLookup (buildFilesMap [(p, Blob.payload v),
        (ManifestFileName, Blob.manifestDoc [(p, tags)])]) e.1).isSome = true := by
    intro e he
    have : e = (p, tags) := by simpa using he
    subst this
    rw [hbuild, mapLookup_cons]
    simp
  obtain ⟨r, ws, hok, hrm, hrf, -⟩ := newReader_ok _ _ hm hall
  refine ⟨_, _, r, ws, hadd, hclose, hok, ?_⟩
  have hfil : r.manifestMap.filter (fun e => tagSetMatch e.2 tags) = [(p, tags)] := by
    rw [hrm]
    simp [List.filter_cons, tagSetMatch_self]
  have hget : r.Get p = .ok (Blob.payload v) := by
    unfold Reader.Get Reader.GetFile
    rw [hrf, hbuild, mapLookup_cons]
    simp
  simp [Reader.Load, hfil, hget]

/-- Witness for C1 amended at a concrete server-health artifact. -/
theorem c1_witness :
    ∃ w1 w2 r ws,
      (NewWriter Nat).Add (Blob.payload 7)
          [TagCluster "C1", TagServer "S1", TagServerHealth] = (w1, none) ∧
      w1.Close = (w2, none) ∧
      NewReader w2.entries = .ok (r, ws) ∧
      r.Load [TagCluster "C1", TagServer "S1", TagServerHealth]
        = .ok (Blob.payload 7) :=
  c1_round_trip 7 [TagCluster "C1", TagServer "S1", TagServerHealth]
    "capture/clusters/C1/S1/health.json" rfl (by decide)

/-- Number of tags in a list carrying a given label (a permutation
invariant of the list). -/
def countName (l : List Tag) (n : String) : Nat :=
  l.countP (fun t => t.name == n)

/-- First tag in a list carrying a given label. -/
def findTag (l : List Tag) (n : String) : Option Tag :=
  l.find? (fun t => t.name == n)

/-- Outcome of the naming function expressed through permutation
invariants of the tag list: the reserved manifest singleton, emptiness,
presence of a special tag, a duplicated dimension label, presence of a
non-dimension tag, and otherwise composition from the first (unique)
tag of each dimension.  This is a proof device for order-independence;
createFilename_toOption proves it coincides with the translated source
function. -/
def nameOutcome (l : List Tag) : Option String :=
  if l = [internalTagManifest] then some (archiveRoot ++ "manifest.json")
  else if l.isEmpty then none
  else if l.any (fun t => (specialFilesTagMap t).isSome) then none
  else if dimensionTagsNames.any (fun n => decide (2 ≤ countName l n)) then none
  else if l.any (fun t => !(dimensionTagsNames.contains t.name)) then none
  else (composeFromLookups (findTag l accountTagLabel) (findTag l clusterTagLabel)
    (findTag l serverTagLabel) (findTag l streamTagLabel) (findTag l typeTagLabel)
    (findTag l profileNameTagLabel)).toOption

theorem find_eq_head_filter {α : Type _} (p : α → Bool) (l : List α) :
    l.find? p = (l.filter p).head? := by
  induction l with
  | nil => rfl
  | cons a t ih =>
    cases h : p a with
    | true => rw [List.find?_cons_of_pos _ h, List.filter_cons_of_pos h, List.head?_cons]
    | false =>
      rw [List.find?_cons_of_neg _ (by simp [h]), List.filter_cons_of_neg (by simp [h]), ih]

theorem perm_any {α : Type _} {l1 l2 : List α} (h : l1.Perm l2) (p : α → Bool) :
    l1.any p = l2.any p := by
  cases hx : l2.any p with
  | true =>
    rw [List.any_eq_true] at hx ⊢
    obtain ⟨x, hmem, hp⟩ := hx
    exact ⟨x, h.mem_iff.mpr hmem, hp⟩
  | false =>
    rw [List.any_eq_false] at hx ⊢
    intro x hmem
    exact hx x (h.mem_iff.mp hmem)

theorem perm_find_of_countP_le_one {α : Type _} {l1 l2 : List α} (h : l1.Perm l2)
    (p : α → Bool) (hc : l1.countP p ≤ 1) : l1.find? p = l2.find? p := by
  rw [find_eq_head_filter, find_eq_head_filter]
  have hperm := h.filter p
  have hlen : (l1.filter p).length ≤ 1 := by
    rw [← List.countP_eq_length_filter]
    exact hc
  match hf : l1.filter p with
  | [] =>
    rw [hf] at hperm
    rw [List.perm_nil.mp hperm.symm]
  | [x] =>
    rw [hf] at hperm
    rw [List.perm_singleton.mp hperm.symm]
  | x :: y :: rest =>
    rw [hf] at hlen
    simp at hlen

theorem mapLookup_nil {β : Type _} (k : String) : mapLookup ([] : List (String × β)) k = none :=
  rfl

theorem mapLookup_singleton (tag : Tag) (n : String) :
    mapLookup [(tag.name, tag)] n = if (tag.name == n) then some tag else none := by
  rw [mapLookup_cons]
  by_cases h : (tag.name == n) = true <;> simp [h, mapLookup_nil]

theorem indicator_count_step (m : List (String × Tag)) (tag : Tag) (rest : List Tag)
    (hdup : mapLookup m tag.name = none) (n : String) :
    (if (mapLookup (m ++ [(tag.name, tag)]) n).isSome then 1 else 0) + countName rest n
      = (if (mapLookup m n).isSome then 1 else 0) + countName (tag :: rest) n := by
  rw [mapLookup_append, mapLookup_singleton]
  have hcnt : countName (tag :: rest) n
      = countName rest n + (if (tag.name == n) then 1 else 0) := by
    simp [countName, List.countP_cons]
  rw [hcnt]
  by_cases hn : (tag.name == n) = true
  · have heqn : tag.name = n := by simpa using hn
    rw [← heqn, hdup]
    simp [hn, Nat.add_comm]
  · simp [hn, Option.or_none]

theorem scanTags_isError (l : List Tag) (m : List (String × Tag)) (o : List Tag) :
    (∃ e, scanTags l m o = .error e) ↔
      ((∃ t ∈ l, (specialFilesTagMap t).isSome = true) ∨
        (∃ n ∈ dimensionTagsNames,
          2 ≤ (if (mapLookup m n).isSome then 1 else 0) + countName l n)) := by
  induction l generalizing m o with
  | nil =>
    constructor
    · rintro ⟨e, he⟩
      simp [scanTags] at he
    · rintro (⟨t, ht, -⟩ | ⟨n, -, hc⟩)
      · simp at ht
      · have h0 : countName ([] : List Tag) n = 0 := rfl
        rw [h0] at hc
        by_cases hm : (mapLookup m n).isSome = true <;> simp [hm] at hc
  | cons tag rest ih =>
    by_cases hsp : (specialFilesTagMap tag).isSome = true
    · constructor
      · intro _
        exact Or.inl ⟨tag, List.mem_cons_self tag rest, hsp⟩
      · intro _
        refine ⟨.specialCombined tag.name, ?_⟩
        simp only [scanTags, hsp]
        simp
    · have hsp' : (specialFilesTagMap tag).isSome = false := by simpa using hsp
      by_cases hdim : dimensionTagsNames.contains tag.name = true
      · by_cases hdup : (mapLookup m tag.name).isSome = true
        · constructor
          · intro _
            refine Or.inr ⟨tag.name, by simpa [List.elem_iff] using hdim, ?_⟩
            have h1 : 1 ≤ countName (tag :: rest) tag.name := by
              simp [countName, List.countP_cons]
            rw [if_pos hdup]
            omega
          · intro _
            refine ⟨.multipleValues tag.name, ?_⟩
            simp only [scanTags, hsp', hdim, hdup]
            simp
        · have hdup' : (mapLookup m tag.name).isSome = false := by simpa using hdup
          have hdupn : mapLookup m tag.name = none := by
            cases hx : mapLookup m tag.name with
            | none => rfl
            | some v => rw [hx] at hdup; simp at hdup
          have heq : scanTags (tag :: rest) m o
              = scanTags rest (m ++ [(tag.name, tag)]) o := by
            simp only [scanTags, hsp', hdim, hdup']
            simp
          rw [heq, ih]
          constructor
          · rintro (⟨t, ht, hts⟩ | ⟨n, hn, hc⟩)
            · exact Or.inl ⟨t, List.mem_cons_of_mem _ ht, hts⟩
            · rw [indicator_count_step m tag rest hdupn n] at hc
              exact Or.inr ⟨n, hn, hc⟩
          · rintro (⟨t, ht, hts⟩ | ⟨n, hn, hc⟩)
            · rcases List.mem_cons.mp ht with h | h
              · exact absurd (h ▸ hts) hsp
              · exact Or.inl ⟨t, h, hts⟩
            · rw [← indicator_count_step m tag rest hdupn n] at hc
              exact Or.inr ⟨n, hn, hc⟩
      · have hdim' : dimensionTagsNames.contains tag.name = false := by simpa using hdim
        have heq : scanTags (tag :: rest) m o = scanTags rest m (o ++ [tag]) := by
          simp only [scanTags, hsp', hdim']
          simp
        rw [heq, ih]
        have hcnt : ∀ n ∈ dimensionTagsNames,
            countName (tag :: rest) n = countName rest n := by
          intro n hn
          have hne : (tag.name == n) = false := by
            refine beq_eq_false_iff_ne.mpr fun hh => ?_
            exact hdim (by rw [hh]; simpa [List.elem_iff] using hn)
          simp [countName, List.countP_cons, hne]
        constructor
        · rintro (⟨t, ht, hts⟩ | ⟨n, hn, hc⟩)
          · exact Or.inl ⟨t, List.mem_cons_of_mem _ ht, hts⟩
          · rw [← hcnt n hn] at hc
            exact Or.inr ⟨n, hn, hc⟩
        · rintro (⟨t, ht, hts⟩ | ⟨n, hn, hc⟩)
          · rcases List.mem_cons.mp ht with h | h
            · exact absurd (h ▸ hts) hsp
            · exact Or.inl ⟨t, h, hts⟩
          · rw [hcnt n hn] at hc
            exact Or.inr ⟨n, hn, hc⟩

theorem findTag_cons (tag : Tag) (rest : List Tag) (n : String) :
    findTag (tag :: rest) n = if (tag.name == n) then some tag else findTag rest n := by
  cases hn : (tag.name == n) with
  | true => simp [findTag, List.find?_cons_of_pos _ hn, hn]
  | false =>
    have hneg : ¬ ((fun t : Tag => t.name == n) tag = true) := by simp [hn]
    simp [findTag, List.find?_cons_of_neg _ hneg, hn]

theorem scanTags_ok_lookup {l : List Tag} {m : List (String × Tag)} {o : List Tag}
    {res : List (String × Tag) × List Tag} (h : scanTags l m o = .ok res) (n : String)
    (hdimn : n ∈ dimensionTagsNames) :
    mapLookup res.1 n = (mapLookup m n).or (findTag l n) := by
  induction l generalizing m o with
  | nil =>
    simp only [scanTags] at h
    cases h
    simp [findTag, List.find?, Option.or_none]
  | cons tag rest ih =>
    by_cases hsp : (specialFilesTagMap tag).isSome = true
    · have hstep : scanTags (tag :: rest) m o = .error (.specialCombined tag.name) := by
        simp only [scanTags, hsp]
        simp
      rw [hstep] at h
      cases h
    · have hsp' : (specialFilesTagMap tag).isSome = false := by simpa using hsp
      by_cases hdim : dimensionTagsNames.contains tag.name = true
      · by_cases hdup : (mapLookup m tag.name).isSome = true
        · have hstep : scanTags (tag :: rest) m o
              = .error (.multipleValues tag.name) := by
            simp only [scanTags, hsp', hdim, hdup]
            simp
          rw [hstep] at h
          cases h
        · have hdup' : (mapLookup m tag.name).isSome = false := by simpa using hdup
          have hdupn : mapLookup m tag.name = none := by
            cases hx : mapLookup m tag.name with
            | none => rfl
            | some v => rw [hx] at hdup'; simp at hdup'
          have hstep : scanTags (tag :: rest) m o
              = scanTags rest (m ++ [(tag.name, tag)]) o := by
            simp only [scanTags, hsp', hdim, hdup']
            simp
          rw [hstep] at h
          rw [ih h, mapLookup_append, mapLookup_singleton, findTag_cons]
          by_cases hn : (tag.name == n) = true
          · have heqn : tag.name = n := by simpa using hn
            rw [← heqn, hdupn]
            simp [hn]
          · have hn' : (tag.name == n) = false := by simpa using hn
            simp only [hn', if_false, Option.or_none, Bool.false_eq_true]
      · have hdim' : dimensionTagsNames.contains tag.name = false := by simpa using hdim
        have hstep : scanTags (tag :: rest) m o = scanTags rest m (o ++ [tag]) := by
          simp only [scanTags, hsp', hdim']
          simp
        rw [hstep] at h
        rw [ih h, findTag_cons]
        have hne : (tag.name == n) = false := by
          refine beq_eq_false_iff_ne.mpr fun hh => ?_
          exact hdim (by rw [hh]; simpa [List.elem_iff] using hdimn)
        simp only [hne, if_false, Bool.false_eq_true]

theorem scanTags_ok_others {l : List Tag} {m : List (String × Tag)} {o : List Tag}
    {res : List (String × Tag) × List Tag} (h : scanTags l m o = .ok res) :
    res.2 = o ++ l.filter (fun t => !(dimensionTagsNames.contains t.name)) := by
  induction l generalizing m o with
  | nil =>
    simp only [scanTags] at h
    cases h
    simp
  | cons tag rest ih =>
    by_cases hsp : (specialFilesTagMap tag).isSome = true
    · have hstep : scanTags (tag :: rest) m o = .error (.specialCombined tag.name) := by
        simp only [scanTags, hsp]
        simp
      rw [hstep] at h
      cases h
    · have hsp' : (specialFilesTagMap tag).isSome = false := by simpa using hsp
      by_cases hdim : dimensionTagsNames.contains tag.name = true
      · by_cases hdup : (mapLookup m tag.name).isSome = true
        · have hstep : scanTags (tag :: rest) m o
              = .error (.multipleValues tag.name) := by
            simp only [scanTags, hsp', hdim, hdup]
            simp
          rw [hstep] at h
          cases h
        · have hdup' : (mapLookup m tag.name).isSome = false := by simpa using hdup
          have hstep : scanTags (tag :: rest) m o
              = scanTags rest (m ++ [(tag.name, tag)]) o := by
            simp only [scanTags, hsp', hdim, hdup']
            simp
          rw [hstep] at h
          have hp : ¬ ((fun t : Tag => !(dimensionTagsNames.contains t.name)) tag = true) := by
            show ¬ ((!(dimensionTagsNames.contains tag.name)) = true)
            rw [hdim]
            simp
          rw [ih h, @List.filter_cons_of_neg _ _ tag rest hp]
      · have hdim' : dimensionTagsNames.contains tag.name = false := by simpa using hdim
        have hstep : scanTags (tag :: rest) m o = scanTags rest m (o ++ [tag]) := by
          simp only [scanTags, hsp', hdim']
          simp
        rw [hstep] at h
        have hp : (fun t : Tag => !(dimensionTagsNames.contains t.name)) tag = true := by
          show (!(dimensionTagsNames.contains tag.name)) = true
          rw [hdim']
          simp
        rw [ih h, @List.filter_cons_of_pos _ _ tag rest hp, List.append_assoc,
          List.singleton_append]

theorem scanCompose_toOption (l : List Tag) :
    (scanCompose l).toOption =
      if l.any (fun t => (specialFilesTagMap t).isSome) then none
      else if dimensionTagsNames.any (fun n => decide (2 ≤ countName l n)) then none
      else if l.any (fun t => !(dimensionTagsNames.contains t.name)) then none
      else (composeFromLookups (findTag l accountTagLabel) (findTag l clusterTagLabel)
        (findTag l serverTagLabel) (findTag l streamTagLabel) (findTag l typeTagLabel)
        (findTag l profileNameTagLabel)).toOption := by
  cases hscan : scanTags l [] [] with
  | error e =>
    have hE := (scanTags_isError l [] []).mp ⟨e, hscan⟩
    have hE' : (l.any (fun t => (specialFilesTagMap t).isSome) = true) ∨
        (dimensionTagsNames.any (fun n => decide (2 ≤ countName l n)) = true) := by
      rcases hE with ⟨t, ht, hts⟩ | ⟨n, hn, hc⟩
      · exact Or.inl (List.any_eq_true.mpr ⟨t, ht, hts⟩)
      · refine Or.inr (List.any_eq_true.mpr ⟨n, hn, ?_⟩)
        rw [mapLookup_nil] at hc
        simp only [Option.isSome_none, Bool.false_eq_true, if_false] at hc
        simpa using hc
    have hnone : (scanCompose l).toOption = none := by
      simp [scanCompose, hscan, Except.toOption]
    rw [hnone]
    by_cases h1 : l.any (fun t => (specialFilesTagMap t).isSome) = true
    · rw [if_pos h1]
    · rw [if_neg h1, if_pos (hE'.resolve_left h1)]
  | ok res =>
    obtain ⟨m', o'⟩ := res
    have hnoerr := (scanTags_isError l [] []).not.mp (by
      rintro ⟨e, he⟩
      rw [hscan] at he
      cases he)
    rw [not_or] at hnoerr
    obtain ⟨hnsp, hndup⟩ := hnoerr
    have h1 : l.any (fun t => (specialFilesTagMap t).isSome) = false := by
      rw [List.any_eq_false]
      intro t ht hts
      exact hnsp ⟨t, ht, hts⟩
    have h2 : dimensionTagsNames.any (fun n => decide (2 ≤ countName l n)) = false := by
      rw [List.any_eq_false]
      intro n hn hc
      refine hndup ⟨n, hn, ?_⟩
      rw [mapLookup_nil]
      simp only [Option.isSome_none, Bool.false_eq_true, if_false]
      simpa using hc
    rw [if_neg (by rw [h1]; exact Bool.false_ne_true), if_neg (by rw [h2]; exact Bool.false_ne_true)]
    have hoth := scanTags_ok_others hscan
    simp only [List.nil_append] at hoth
    by_cases h3 : l.any (fun t => !(dimensionTagsNames.contains t.name)) = true
    · rw [if_pos h3]
      have hne : o' ≠ [] := by
        rw [List.any_eq_true] at h3
        obtain ⟨t, ht, hp⟩ := h3
        rw [hoth]
        intro hcontra
        rw [List.filter_eq_nil_iff] at hcontra
        exact hcontra t ht hp
      have hoe : o'.isEmpty = false := by
        cases ho : o' with
        | nil => exact absurd ho hne
        | cons a b => rfl
      simp [scanCompose, hscan, hoe, Except.toOption]
    · have h3' : l.any (fun t => !(dimensionTagsNames.contains t.name)) = false := by
        simpa using h3
      rw [if_neg (by rw [h3']; exact Bool.false_ne_true)]
      have hfe : l.filter (fun t => !(dimensionTagsNames.contains t.name)) = [] := by
        rw [List.filter_eq_nil_iff]
        intro t ht hp
        rw [List.any_eq_false] at h3'
        exact h3' t ht hp
      have hoe : o'.isEmpty = true := by
        rw [hoth, hfe]
        rfl
      have hlk : ∀ n ∈ dimensionTagsNames, mapLookup m' n = findTag l n := by
        intro n hn
        have := scanTags_ok_lookup hscan n hn
        simpa [mapLookup_nil] using this
      have hred : scanCompose l = composeFromLookups (mapLookup m' accountTagLabel)
          (mapLookup m' clusterTagLabel) (mapLookup m' serverTagLabel)
          (mapLookup m' streamTagLabel) (mapLookup m' typeTagLabel)
          (mapLookup m' profileNameTagLabel) := by
        simp [scanCompose, hscan, hoe]
      rw [hred, hlk accountTagLabel (by decide), hlk clusterTagLabel (by decide),
        hlk serverTagLabel (by decide), hlk streamTagLabel (by decide),
        hlk typeTagLabel (by decide), hlk profileNameTagLabel (by decide)]

theorem createFilename_toOption (l : List Tag) :
    (createFilenameFromTags l).toOption = nameOutcome l := by
  match l with
  | [] => rfl
  | [t] =>
    by_cases hsp : (specialFilesTagMap t).isSome = true
    · have ht : t = internalTagManifest := by
        by_contra hne
        simp [specialFilesTagMap, hne] at hsp
      subst ht
      rfl
    · have hsp' : specialFilesTagMap t = none := by
        cases hx : specialFilesTagMap t with
        | none => rfl
        | some s => rw [hx] at hsp; simp at hsp
      have hL : createFilenameFromTags [t] = scanCompose [t] := by
        simp [createFilenameFromTags, hsp']
      have hne1 : ¬ (([t] : List Tag) = [internalTagManifest]) := by
        intro h
        have ht : t = internalTagManifest := by simpa using h
        rw [ht] at hsp'
        simp [specialFilesTagMap] at hsp'
      rw [hL, scanCompose_toOption]
      unfold nameOutcome
      rw [if_neg hne1, if_neg (by simp : ¬(([t] : List Tag).isEmpty = true))]
  | t1 :: t2 :: rest =>
    have hne1 : ¬ ((t1 :: t2 :: rest : List Tag) = [internalTagManifest]) := by simp
    have hL : createFilenameFromTags (t1 :: t2 :: rest) = scanCompose (t1 :: t2 :: rest) := rfl
    rw [hL, scanCompose_toOption]
    unfold nameOutcome
    rw [if_neg hne1, if_neg (by simp : ¬((t1 :: t2 :: rest : List Tag).isEmpty = true))]

theorem nameOutcome_perm {l1 l2 : List Tag} (h : l1.Perm l2) :
    nameOutcome l1 = nameOutcome l2 := by
  by_cases hc1 : l1 = [internalTagManifest]
  · have hc2 : l2 = [internalTagManifest] := by
      rw [hc1] at h
      exact List.perm_singleton.mp h.symm
    rw [hc1, hc2]
  · have hc2 : ¬ (l2 = [internalTagManifest]) := by
      intro he
      rw [he] at h
      exact hc1 (List.perm_singleton.mp h)
    have heq2 : l1.isEmpty = l2.isEmpty := by
      cases l1 with
      | nil => rw [List.perm_nil.mp h.symm]
      | cons a t =>
        cases l2 with
        | nil => exact absurd (List.perm_nil.mp h) (by simp)
        | cons b s => rfl
    have heq3 : l1.any (fun t => (specialFilesTagMap t).isSome)
        = l2.any (fun t => (specialFilesTagMap t).isSome) := perm_any h _
    have hfeq : (fun n => decide (2 ≤ countName l1 n))
        = (fun n => decide (2 ≤ countName l2 n)) := by
      funext n
      unfold countName
      rw [h.countP_eq]
    have heq5 : l1.any (fun t => !(dimensionTagsNames.contains t.name))
        = l2.any (fun t => !(dimensionTagsNames.contains t.name)) := perm_any h _
    unfold nameOutcome
    rw [if_neg hc1, if_neg hc2, heq2, heq3, hfeq, heq5]
    by_cases hdup : (dimensionTagsNames.any (fun n => decide (2 ≤ countName l2 n))) = true
    · rw [if_pos hdup, if_pos hdup]
    · have hfalse : (dimensionTagsNames.any fun n => decide (2 ≤ countName l2 n)) = false := by
        cases hx : (dimensionTagsNames.any fun n => decide (2 ≤ countName l2 n)) with
        | false => rfl
        | true => exact absurd hx hdup
      have hle : ∀ n ∈ dimensionTagsNames, l1.countP (fun t => t.name == n) ≤ 1 := by
        intro n hn
        have hno := List.any_eq_false.mp hfalse n hn
        have h2 : ¬ (2 ≤ countName l2 n) := by simpa using hno
        have hcc : countName l1 n = countName l2 n := by
          unfold countName
          rw [h.countP_eq]
        unfold countName at hcc h2
        omega
      have hft : ∀ n ∈ dimensionTagsNames, findTag l1 n = findTag l2 n := by
        intro n hn
        exact perm_find_of_countP_le_one h _ (hle n hn)
      rw [hft accountTagLabel (by decide), hft clusterTagLabel (by decide),
        hft serverTagLabel (by decide), hft streamTagLabel (by decide),
        hft typeTagLabel (by decide), hft profileNameTagLabel (by decide)]

/-- C4: the naming function is order-independent: permuting the input
tag list yields the same path on success and an error exactly when the
original errors (as a Lean function the translation is pure by
construction, so determinism holds definitionally). -/
theorem c4_order_independence (l1 l2 : List Tag) (h : l1.Perm l2) :
    (createFilenameFromTags l1).toOption = (createFilenameFromTags l2).toOption := by
  rw [createFilename_toOption, createFilename_toOption, nameOutcome_perm h]

/-- Witness for C4 at a concrete permutation of a server-health tag
list. -/
theorem c4_witness :
    ([TagCluster "C1", TagServer "S1", TagServerHealth] : List Tag).Perm
      [TagServerHealth, TagServer "S1", TagCluster "C1"] ∧
    (createFilenameFromTags [TagCluster "C1", TagServer "S1", TagServerHealth]).toOption
      = (createFilenameFromTags [TagServerHealth, TagServer "S1", TagCluster "C1"]).toOption :=
  ⟨by decide, c4_order_independence _ _ (by decide)⟩

end NatsArchive
